import Mathlib

/-!
Shallow embedding of the ether-keyproxy keyring synchronization engine
(src/proxy.go) and verification of the specification's claims about it.

The engine keeps a mutable keyring: a slice `keys` of key-entry buffers
(each a byte slice whose first 16 bytes are the entry's name), plus a
pointer `defaultKey` to the slice header of the designated default entry.
Because the Go code manipulates buffers through aliased slice headers
(zeroing a removed key's bytes also zeroes what `defaultKey` points at),
the embedding keeps an explicit heap of buffers: `heap` lists every
allocated payload buffer, `keys` holds the heap indices currently in the
ring, and `dflt` holds the heap index the `defaultKey` pointer refers to
(or `none` when the pointer is nil).  Bytes are modelled as `Nat`.
-/

namespace EtherKeyProxy

/-- A byte buffer (a Go byte slice's contents). -/
abbrev Buf := List Nat

/-- An event or query name (a Go string, which is byte-indexed). -/
abbrev EvName := List Char

/-- The fixed length of a key's 16-byte name (`nameLen` in the source). -/
def nameLen : Nat := 16

/-- Event-name suffix for installing a key (`installKeyEvent` in the source). -/
def installKeyEvent : EvName := "install-key".toList

/-- Event-name suffix for removing a key (`removeKeyEvent` in the source). -/
def removeKeyEvent : EvName := "remove-key".toList

/-- Event-name suffix for designating the default key (`setDefaultKeyEvent`). -/
def setDefaultKeyEvent : EvName := "set-default-key".toList

/-- Event-name suffix for wiping all keys (`wipeKeysEvent` in the source). -/
def wipeKeysEvent : EvName := "wipe-keys".toList

/-- The engine's mutable state: `heap` is every allocated key buffer (indexed
by allocation order), `keys` is the slice `keys [][]byte` as heap indices,
`dflt` models the `defaultKey *[]byte` pointer as the heap index of the
buffer its target slice header shares its backing array with. -/
structure KState where
  heap : List Buf
  keys : List Nat
  dflt : Option Nat
deriving DecidableEq

/-- Read a buffer out of the heap (dangling indices read as empty). -/
def heapGet (h : List Buf) (bid : Nat) : Buf := h.getD bid []

/-- In-place zeroing of a buffer: the source's byte loop sets every byte of
the key to 0, preserving the buffer's length. -/
def zeroBuf (b : Buf) : Buf := b.map fun _ => 0

/-- Zero the heap buffer at index `bid` in place. -/
def heapZero (h : List Buf) (bid : Nat) : List Buf :=
  h.set bid (zeroBuf (heapGet h bid))

/-- Outcome of the install operation (log line in the source). -/
inductive InstallResult where
  | installed
  | alreadyPresent
deriving DecidableEq

/-- Outcome of the remove operation (log line in the source). -/
inductive RemoveResult where
  | removed
  | notFound
deriving DecidableEq

/-- Outcome of the set-default operation (log line in the source). -/
inductive SetDefaultResult where
  | ok
  | notFound
deriving DecidableEq

/-- The source's linear scan: first heap index `bid` in `ks` whose buffer's
16-byte name equals `p` (`bytes.Equal(key[:nameLen], p)`). -/
def findKey (h : List Buf) (p : Buf) : List Nat → Option Nat
  | [] => none
  | bid :: rest =>
    if (heapGet h bid).take nameLen = p then some bid else findKey h p rest

/-- The source's linear scan returning the position in `ks` of the first
match instead of the heap index (the loop variable `i` in the remove case). -/
def findKeyIdx (h : List Buf) (p : Buf) : List Nat → Option Nat
  | [] => none
  | bid :: rest =>
    if (heapGet h bid).take nameLen = p then some 0
    else (findKeyIdx h p rest).map (· + 1)

/-- The source's swap-with-last removal of position `j`:
`keys[i] = keys[len(keys)-1]; keys[len(keys)-1] = nil; keys = keys[:len(keys)-1]`. -/
def swapRemoveAt (ks : List Nat) (j : Nat) : List Nat :=
  (ks.set j (ks.getD (ks.length - 1) 0)).dropLast

/-- The install-key mutation (source lines 131-142): if a key with the same
16-byte name exists, report already-present and change nothing; otherwise
append the payload as a new entry.  The default pointer is untouched. -/
def install (s : KState) (p : Buf) : KState × InstallResult :=
  match findKey s.heap (p.take nameLen) s.keys with
  | some _ => (s, InstallResult.alreadyPresent)
  | none =>
    ({ heap := s.heap ++ [p], keys := s.keys ++ [s.heap.length], dflt := s.dflt },
     InstallResult.installed)

/-- The remove-key mutation (source lines 150-168): find the first entry whose
16-byte name equals the payload; zero its buffer in place and swap-remove it
from `keys`.  NOTE: faithful to the source, `dflt` is NOT cleared. -/
def remove (s : KState) (p : Buf) : KState × RemoveResult :=
  match findKeyIdx s.heap p s.keys with
  | some j =>
    ({ heap := heapZero s.heap (s.keys.getD j 0),
       keys := swapRemoveAt s.keys j,
       dflt := s.dflt }, RemoveResult.removed)
  | none => (s, RemoveResult.notFound)

/-- The set-default-key mutation (source lines 176-190): `defaultKey = nil`
first, then scan for a matching entry and point `defaultKey` at it. -/
def set_default (s : KState) (p : Buf) : KState × SetDefaultResult :=
  let cleared : KState := { s with dflt := none }
  match findKey s.heap p s.keys with
  | some bid => ({ cleared with dflt := some bid }, SetDefaultResult.ok)
  | none => (cleared, SetDefaultResult.notFound)

/-- The wipe-keys mutation (source lines 198-208): zero every listed buffer in
place, then `defaultKey = nil; keys = nil`. -/
def wipe (s : KState) : KState :=
  { heap := s.keys.foldl heapZero s.heap, keys := [], dflt := none }

/-- The snapshot the query responder encodes (source lines 70-79):
`Default = (*defaultKey)[:nameLen]` when the pointer is non-nil (empty
otherwise), `Keys = keys`. -/
structure Snapshot where
  dflt : Buf
  entries : List Buf
deriving DecidableEq

/-- Take a snapshot of the state (the `resp` struct the responder encodes). -/
def snapshot (s : KState) : Snapshot :=
  { dflt :=
      match s.dflt with
      | some bid => (heapGet s.heap bid).take nameLen
      | none => []
    entries := s.keys.map (heapGet s.heap) }

/-- An inbound serf user event: `{Name, Payload, Coalesce}`. -/
structure Event where
  name : EvName
  payload : Buf
  coalesce : Bool
deriving DecidableEq

/-- The observable outcome of handling one inbound event: the events
republished verbatim to the LAN tier (`lanRPC.UserEvent`), whether the
handler panicked (fatal halt), and the resulting keyring state. -/
structure HandleOut where
  relayed : List Event
  fatal : Bool
  state : KState
deriving DecidableEq

/-- One iteration of the event-relay loop (source lines 106-211) with
configured name prefix `pfx`.  `ev.name.take pfx.length` models the Go
byte-slice `name[:len(pfx)]`, which panics when the name is shorter than
the prefix; the relay to the LAN tier happens before the payload-length
switch, and a length violation panics after the relay but before any
mutation. -/
def handleEvent (pfx : EvName) (s : KState) (ev : Event) : HandleOut :=
  if ev.name.length < pfx.length then
    { relayed := [], fatal := true, state := s }
  else if ev.name.take pfx.length ≠ pfx then
    { relayed := [], fatal := false, state := s }
  else
    let sfx := ev.name.drop pfx.length
    if sfx = installKeyEvent then
      if ev.payload.length ≤ nameLen then { relayed := [ev], fatal := true, state := s }
      else { relayed := [ev], fatal := false, state := (install s ev.payload).1 }
    else if sfx = removeKeyEvent then
      if ev.payload.length ≠ nameLen then { relayed := [ev], fatal := true, state := s }
      else { relayed := [ev], fatal := false, state := (remove s ev.payload).1 }
    else if sfx = setDefaultKeyEvent then
      if ev.payload.length ≠ nameLen then { relayed := [ev], fatal := true, state := s }
      else { relayed := [ev], fatal := false, state := (set_default s ev.payload).1 }
    else if sfx = wipeKeysEvent then
      { relayed := [ev], fatal := false, state := wipe s }
    else
      { relayed := [ev], fatal := false, state := s }

/-- The decoded bootstrap response body: `{Default []byte, Keys [][]byte}`. -/
structure BootstrapBody where
  dflt : Buf
  keys : List Buf
deriving DecidableEq

/-- The bootstrap merge (source lines 242-275): panic unless the decoded
default has length exactly `nameLen` (`len(body.Default) != nameLen`); panic
if any key is shorter than `nameLen` (the `key[:nameLen]` slicings); else
adopt the response's keys wholesale and point `defaultKey` at the first key
whose 16-byte name equals the default field.  Returns `none` on panic. -/
def bootstrap (body : BootstrapBody) : Option KState :=
  if body.dflt.length ≠ nameLen then none
  else if body.keys.any fun k => decide (k.length < nameLen) then none
  else some
    { heap := body.keys,
      keys := List.range body.keys.length,
      dflt := findKey body.keys body.dflt (List.range body.keys.length) }

/-- The malformed-payload conditions of the mutation decoder: an install-key
event whose payload is not longer than 16 bytes, or a remove-key or
set-default-key event whose payload is not exactly 16 bytes. -/
def Malformed (pfx : EvName) (ev : Event) : Prop :=
  (ev.name = pfx ++ installKeyEvent ∧ ev.payload.length ≤ nameLen) ∨
  (ev.name = pfx ++ removeKeyEvent ∧ ev.payload.length ≠ nameLen) ∨
  (ev.name = pfx ++ setDefaultKeyEvent ∧ ev.payload.length ≠ nameLen)

/-- Well-formed state: every ring slot points to an allocated buffer (true of
every state the Go program can reach, where `keys` holds live slices). -/
def WFk (s : KState) : Prop := ∀ bid ∈ s.keys, bid < s.heap.length

/-- The list of entry buffers currently in the ring, in order. -/
def entries (s : KState) : List Buf := s.keys.map (heapGet s.heap)

/-- The empty start state (`keys`, `defaultKey` zero-valued at process start). -/
def s0 : KState := { heap := [], keys := [], dflt := none }

/-- A concrete 17-byte key entry whose 16-byte name is sixteen 1-bytes. -/
def kEx1 : Buf := List.replicate 16 1 ++ [7]

/-- A concrete 17-byte key entry whose 16-byte name is sixteen 2-bytes. -/
def kEx2 : Buf := List.replicate 16 2 ++ [9]

/-- The source's default value of the configured event-name prefix flag. -/
def pfxEx : EvName := "ether:".toList

theorem heapGet_set_self (h : List Buf) (bid : Nat) (x : Buf) (hb : bid < h.length) :
    heapGet (h.set bid x) bid = x := by
  simp [heapGet, List.getD, List.getElem?_set_self, hb]

theorem heapGet_set_ne (h : List Buf) (i j : Nat) (x : Buf) (hij : i ≠ j) :
    heapGet (h.set i x) j = heapGet h j := by
  simp [heapGet, List.getD, List.getElem?_set_ne hij]

theorem heapGet_append_lt (h r : List Buf) (bid : Nat) (hb : bid < h.length) :
    heapGet (h ++ r) bid = heapGet h bid := by
  simp [heapGet, List.getD, List.getElem?_append_left hb]

theorem heapGet_append_self (h : List Buf) (b : Buf) :
    heapGet (h ++ [b]) h.length = b := by
  simp [heapGet]

theorem heapGet_out (h : List Buf) (bid : Nat) (hb : h.length ≤ bid) :
    heapGet h bid = [] :=
  List.getD_eq_default h [] hb

theorem heapGet_pos_lt (h : List Buf) (bid : Nat) (hne : heapGet h bid ≠ []) :
    bid < h.length := by
  by_contra hcon
  exact hne (heapGet_out h bid (Nat.le_of_not_lt hcon))

theorem zeroBuf_eq_replicate (b : Buf) : zeroBuf b = List.replicate b.length 0 := by
  induction b with
  | nil => rfl
  | cons a t ih =>
    simp only [zeroBuf, List.map_cons, List.length_cons, List.replicate_succ,
      List.cons.injEq, true_and]
    exact ih

theorem zeroBuf_all_zero (b : Buf) : ∀ x ∈ zeroBuf b, x = 0 := by
  simp [zeroBuf]

theorem heapGet_heapZero_self (h : List Buf) (bid : Nat) (hb : bid < h.length) :
    heapGet (heapZero h bid) bid = zeroBuf (heapGet h bid) := by
  rw [heapZero]
  exact heapGet_set_self h bid _ hb

theorem heapGet_heapZero_ne (h : List Buf) (i j : Nat) (hij : i ≠ j) :
    heapGet (heapZero h i) j = heapGet h j := by
  rw [heapZero]
  exact heapGet_set_ne h i j _ hij

theorem heapGet_heapZero_out (h : List Buf) (i : Nat) (hb : ¬ i < h.length) :
    heapGet (heapZero h i) i = [] := by
  apply heapGet_out
  simpa [heapZero] using Nat.le_of_not_lt hb

theorem heapGet_heapZero_length (h : List Buf) (i j : Nat) :
    (heapGet (heapZero h i) j).length = (heapGet h j).length := by
  by_cases hij : i = j
  · subst hij
    by_cases hb : i < h.length
    · rw [heapGet_heapZero_self h i hb]
      simp [zeroBuf]
    · rw [heapGet_heapZero_out h i hb, heapGet_out h i (Nat.le_of_not_lt hb)]
  · rw [heapGet_heapZero_ne h i j hij]

theorem heapZero_pres_zero (h : List Buf) (i j : Nat)
    (hz : ∀ x ∈ heapGet h j, x = 0) : ∀ x ∈ heapGet (heapZero h i) j, x = 0 := by
  by_cases hij : i = j
  · subst hij
    by_cases hb : i < h.length
    · rw [heapGet_heapZero_self h i hb]
      exact zeroBuf_all_zero _
    · rw [heapGet_heapZero_out h i hb]
      intro x hx
      cases hx
  · rw [heapGet_heapZero_ne h i j hij]
    exact hz

theorem foldl_heapZero_length (ks : List Nat) (h : List Buf) (j : Nat) :
    (heapGet (ks.foldl heapZero h) j).length = (heapGet h j).length := by
  induction ks generalizing h with
  | nil => rfl
  | cons a t ih => rw [List.foldl_cons, ih, heapGet_heapZero_length]

theorem foldl_heapZero_pres_zero (ks : List Nat) (h : List Buf) (j : Nat)
    (hz : ∀ x ∈ heapGet h j, x = 0) :
    ∀ x ∈ heapGet (ks.foldl heapZero h) j, x = 0 := by
  induction ks generalizing h with
  | nil => exact hz
  | cons a t ih =>
    rw [List.foldl_cons]
    exact ih _ (heapZero_pres_zero h a j hz)

theorem foldl_heapZero_zero_mem (ks : List Nat) (h : List Buf) (bid : Nat) (hb : bid ∈ ks) :
    ∀ x ∈ heapGet (ks.foldl heapZero h) bid, x = 0 := by
  induction ks generalizing h with
  | nil => cases hb
  | cons a t ih =>
    rw [List.foldl_cons]
    rcases List.mem_cons.mp hb with rfl | hmem
    · apply foldl_heapZero_pres_zero
      by_cases hlt : bid < h.length
      · rw [heapGet_heapZero_self h bid hlt]
        exact zeroBuf_all_zero _
      · rw [heapGet_heapZero_out h bid hlt]
        intro x hx
        cases hx
    · exact ih _ hmem

theorem wipe_heapGet (s : KState) (bid : Nat) (hb : bid ∈ s.keys) :
    heapGet (wipe s).heap bid = List.replicate (heapGet s.heap bid).length 0 := by
  have hz := foldl_heapZero_zero_mem s.keys s.heap bid hb
  have hlen : (heapGet (s.keys.foldl heapZero s.heap) bid).length =
      (heapGet s.heap bid).length := foldl_heapZero_length s.keys s.heap bid
  have hrep : heapGet (s.keys.foldl heapZero s.heap) bid =
      List.replicate (heapGet (s.keys.foldl heapZero s.heap) bid).length 0 :=
    List.eq_replicate_iff.mpr ⟨rfl, hz⟩
  calc heapGet (wipe s).heap bid
      = List.replicate (heapGet (s.keys.foldl heapZero s.heap) bid).length 0 := hrep
    _ = List.replicate (heapGet s.heap bid).length 0 := by rw [hlen]

theorem getD_cons_succ_nat (a : Nat) (t : List Nat) (n : Nat) :
    (a :: t).getD (n + 1) 0 = t.getD n 0 := by
  simp [List.getD]

theorem findKeyIdx_lt (h : List Buf) (p : Buf) (ks : List Nat) (j : Nat)
    (hj : findKeyIdx h p ks = some j) : j < ks.length := by
  induction ks generalizing j with
  | nil => cases hj
  | cons a t ih =>
    rw [findKeyIdx] at hj
    by_cases hm : (heapGet h a).take nameLen = p
    · rw [if_pos hm] at hj
      cases hj
      simp
    · rw [if_neg hm] at hj
      rcases Option.map_eq_some'.mp hj with ⟨j', hj', rfl⟩
      have := ih j' hj'
      simp only [List.length_cons]
      omega

theorem findKeyIdx_match (h : List Buf) (p : Buf) (ks : List Nat) (j : Nat)
    (hj : findKeyIdx h p ks = some j) :
    (heapGet h (ks.getD j 0)).take nameLen = p := by
  induction ks generalizing j with
  | nil => cases hj
  | cons a t ih =>
    rw [findKeyIdx] at hj
    by_cases hm : (heapGet h a).take nameLen = p
    · rw [if_pos hm] at hj
      cases hj
      simpa using hm
    · rw [if_neg hm] at hj
      rcases Option.map_eq_some'.mp hj with ⟨j', hj', rfl⟩
      rw [getD_cons_succ_nat]
      exact ih j' hj'

theorem findKey_none_nomatch (h : List Buf) (q : Buf) (ks : List Nat)
    (hn : findKey h q ks = none) : ∀ bid ∈ ks, (heapGet h bid).take nameLen ≠ q := by
  induction ks with
  | nil =>
    intro bid hb
    cases hb
  | cons a t ih =>
    rw [findKey] at hn
    by_cases hm : (heapGet h a).take nameLen = q
    · rw [if_pos hm] at hn
      cases hn
    · rw [if_neg hm] at hn
      intro bid hb
      rcases List.mem_cons.mp hb with rfl | hmem
      · exact hm
      · exact ih hn bid hmem

theorem findKey_heap_ext (h r : List Buf) (q : Buf) (ks : List Nat)
    (hk : ∀ bid ∈ ks, bid < h.length) :
    findKey (h ++ r) q ks = findKey h q ks := by
  induction ks with
  | nil => rfl
  | cons a t ih =>
    rw [findKey, findKey, heapGet_append_lt h r a (hk a (by simp))]
    by_cases hm : (heapGet h a).take nameLen = q
    · rw [if_pos hm, if_pos hm]
    · rw [if_neg hm, if_neg hm]
      exact ih fun bid hb => hk bid (by simp [hb])

theorem findKey_append_one (h : List Buf) (q : Buf) (ks : List Nat) (b : Nat)
    (hn : findKey h q ks = none) :
    findKey h q (ks ++ [b]) =
      if (heapGet h b).take nameLen = q then some b else none := by
  induction ks with
  | nil => rfl
  | cons a t ih =>
    simp only [List.cons_append, findKey] at hn ⊢
    by_cases hm : (heapGet h a).take nameLen = q
    · rw [if_pos hm] at hn
      cases hn
    · rw [if_neg hm] at hn ⊢
      exact ih hn

theorem rk_ne_ik : removeKeyEvent ≠ installKeyEvent := by decide

theorem sk_ne_ik : setDefaultKeyEvent ≠ installKeyEvent := by decide

theorem sk_ne_rk : setDefaultKeyEvent ≠ removeKeyEvent := by decide

theorem wk_ne_ik : wipeKeysEvent ≠ installKeyEvent := by decide

theorem wk_ne_rk : wipeKeysEvent ≠ removeKeyEvent := by decide

theorem wk_ne_sk : wipeKeysEvent ≠ setDefaultKeyEvent := by decide

/-- Unfolding of one relay-loop iteration on an event whose name is the
configured prefix followed by `sfx`: the prefix filter passes, the event is
relayed, and the payload switch dispatches on `sfx`. -/
theorem handleEvent_app (pfx sfx : EvName) (pl : Buf) (c : Bool) (s : KState) :
    handleEvent pfx s { name := pfx ++ sfx, payload := pl, coalesce := c } =
    (let ev : Event := { name := pfx ++ sfx, payload := pl, coalesce := c }
     if sfx = installKeyEvent then
       if pl.length ≤ nameLen then { relayed := [ev], fatal := true, state := s }
       else { relayed := [ev], fatal := false, state := (install s pl).1 }
     else if sfx = removeKeyEvent then
       if pl.length ≠ nameLen then { relayed := [ev], fatal := true, state := s }
       else { relayed := [ev], fatal := false, state := (remove s pl).1 }
     else if sfx = setDefaultKeyEvent then
       if pl.length ≠ nameLen then { relayed := [ev], fatal := true, state := s }
       else { relayed := [ev], fatal := false, state := (set_default s pl).1 }
     else if sfx = wipeKeysEvent then
       { relayed := [ev], fatal := false, state := wipe s }
     else { relayed := [ev], fatal := false, state := s }) := by
  have h1 : ¬ ((pfx ++ sfx).length < pfx.length) := by
    rw [List.length_append]
    omega
  have h2 : (pfx ++ sfx).take pfx.length = pfx := List.take_left pfx sfx
  have h3 : (pfx ++ sfx).drop pfx.length = sfx := List.drop_left pfx sfx
  simp only [handleEvent, h2, h3, if_neg h1, ne_eq, not_true_eq_false, if_false,
    ite_not]

/-- Any malformed prefix-carrying mutation event is relayed verbatim and then
halts the engine fatally before any local mutation. -/
theorem handleEvent_malformed (pfx : EvName) (s : KState) (ev : Event)
    (h : Malformed pfx ev) :
    handleEvent pfx s ev = { relayed := [ev], fatal := true, state := s } := by
  obtain ⟨nm, pl, c⟩ := ev
  rcases h with ⟨hn, hl⟩ | ⟨hn, hl⟩ | ⟨hn, hl⟩ <;> dsimp only at hn hl <;> subst hn
  · rw [handleEvent_app]
    simp [hl]
  · rw [handleEvent_app]
    simp [hl, rk_ne_ik]
  · rw [handleEvent_app]
    simp [hl, sk_ne_ik, sk_ne_rk]

/-- Claim C1: the claim asserts a bootstrap response with a length-0 `Default`
field is accepted, yielding a null default and the response's keys.  The code
instead panics (`invalid default key size`) whenever `len(body.Default) != 16`,
so a length-0 default — exactly what this program's own query responder sends
when no default is set — is rejected as fatal: `bootstrap` returns `none` on
the claim's scenario `(Default: empty, Keys: [K1, K2])`. -/
theorem C1_empty_default_fatal :
  (snapshot { heap := [kEx1, kEx2], keys := [0, 1], dflt := none }).dflt = [] ∧
  bootstrap
    { dflt := (snapshot { heap := [kEx1, kEx2], keys := [0, 1], dflt := none }).dflt,
      keys := (snapshot { heap := [kEx1, kEx2], keys := [0, 1], dflt := none }).entries } =
    none := by decide

/-- Claim C2: the claim asserts that removing the default entry nulls the
default reference so that a snapshot reports an empty default.  In the code
`remove` never touches `defaultKey`: starting empty, after
install(K1), set-default(K1's name), remove(K1's name), the handler does not
halt, the ring is empty, yet the default pointer is still set and the
snapshot reports a default of sixteen zero bytes (the zeroed buffer), not an
empty one — the invariant and the claim are violated. -/
theorem C2_remove_leaves_stale_default :
  (let st1 := (handleEvent pfxEx s0
      { name := "ether:install-key".toList, payload := kEx1, coalesce := false }).state
   let st2 := (handleEvent pfxEx st1
      { name := "ether:set-default-key".toList, payload := List.replicate 16 1,
        coalesce := false }).state
   let out := handleEvent pfxEx st2
      { name := "ether:remove-key".toList, payload := List.replicate 16 1, coalesce := false }
   out.fatal = false ∧ out.state.keys = [] ∧ out.state.dflt = some 0 ∧
     (snapshot out.state).dflt = List.replicate 16 0) := by decide

/-- Claim C3, counterexample: an install-key event whose payload has length 16
(≤ 16, so malformed) IS republished to the LAN tier — `handleEvent` relays it
— contradicting the claim that malformed events are never republished: the
code relays at line 119 before the payload-length switch. -/
theorem C3_malformed_event_still_relayed :
  (handleEvent pfxEx s0
    { name := "ether:install-key".toList, payload := List.replicate 16 1,
      coalesce := false }).relayed ≠ [] := by decide

/-- Claim C4: the claim asserts every event whose name does not carry the
prefix — including names shorter than the prefix — is ignored without error.
The code evaluates `name[:len(pfx)]`, which panics for a shorter name: on
the one-byte name `x` with the default prefix the handler halts fatally
(and relays nothing) instead of ignoring the event. -/
theorem C4_short_name_panics :
  handleEvent pfxEx s0 { name := "x".toList, payload := [], coalesce := false } =
    { relayed := [], fatal := true, state := s0 } := by decide

/-- Claim C3, amended: for every inbound prefix-matching mutation event whose
payload violates its length rule, the relay validates only the name prefix
before relaying — the malformed event IS republished verbatim to tier B, and
the engine then halts fatally without mutating local state (relay precedes
payload-shape validation). -/
theorem C3_relay_precedes_validation (pfx : EvName) (s : KState) (ev : Event)
    (h : Malformed pfx ev) :
    handleEvent pfx s ev = { relayed := [ev], fatal := true, state := s } :=
  handleEvent_malformed pfx s ev h

/-- Witness for C3's amended claim at a concrete malformed remove-key event. -/
theorem C3_relay_precedes_validation_witness :
    handleEvent pfxEx s0
      { name := "ether:remove-key".toList, payload := [1, 2, 3], coalesce := false } =
      { relayed :=
          [{ name := "ether:remove-key".toList, payload := [1, 2, 3], coalesce := false }],
        fatal := true, state := s0 } :=
  C3_relay_precedes_validation pfxEx s0 _ (Or.inr (Or.inl ⟨by decide, by decide⟩))

/-- Claim C5: for every prefix-matching install-key event with payload length
at most 16 and every prefix-matching remove-key or set-default-key event with
payload length different from 16, the engine halts with a fatal error and the
keyring state is exactly as it was before the event. -/
theorem C5_malformed_fatal_state_unchanged (pfx : EvName) (s : KState) (ev : Event)
    (h : Malformed pfx ev) :
    (handleEvent pfx s ev).fatal = true ∧ (handleEvent pfx s ev).state = s := by
  rw [handleEvent_malformed pfx s ev h]
  exact ⟨rfl, rfl⟩

/-- Witness for C5 at a concrete malformed install-key event. -/
theorem C5_witness :
    (handleEvent pfxEx s0
      { name := "ether:install-key".toList, payload := List.replicate 10 3,
        coalesce := true }).fatal = true ∧
    (handleEvent pfxEx s0
      { name := "ether:install-key".toList, payload := List.replicate 10 3,
        coalesce := true }).state = s0 :=
  C5_malformed_fatal_state_unchanged pfxEx s0 _ (Or.inl ⟨by decide, by decide⟩)

theorem entries_install_fresh (s : KState) (p : Buf) (hWF : WFk s)
    (hn : findKey s.heap (p.take nameLen) s.keys = none) :
    entries (install s p).1 = entries s ++ [p] := by
  simp only [install, hn, entries]
  rw [List.map_append]
  congr 1
  · exact List.map_congr_left fun bid hb => heapGet_append_lt _ _ _ (hWF bid hb)
  · simp [heapGet_append_self]

/-- Claim C6: for every well-formed keyring and payload longer than 16 bytes,
install is a no-op reported already-present when an entry with the same
16-byte name exists, appends the entry otherwise, and installing the same
entry twice starting from a ring without that name leaves exactly one entry
bearing that name, equal to the first install's payload. -/
theorem C6_install_correct (s : KState) (p : Buf) (hWF : WFk s)
    (_hlen : nameLen < p.length) :
    (∀ bid, findKey s.heap (p.take nameLen) s.keys = some bid →
       install s p = (s, InstallResult.alreadyPresent)) ∧
    (findKey s.heap (p.take nameLen) s.keys = none →
       entries (install s p).1 = entries s ++ [p] ∧
       (install s p).2 = InstallResult.installed ∧
       (install s p).1.dflt = s.dflt ∧
       install (install s p).1 p = ((install s p).1, InstallResult.alreadyPresent) ∧
       (entries (install s p).1).filter
         (fun e => decide (e.take nameLen = p.take nameLen)) = [p]) := by
  constructor
  · intro bid hb
    simp [install, hb]
  · intro hn
    refine ⟨entries_install_fresh s p hWF hn, by simp [install, hn], by simp [install, hn],
      ?_, ?_⟩
    · have hs1 : (install s p).1 =
          { heap := s.heap ++ [p], keys := s.keys ++ [s.heap.length], dflt := s.dflt } := by
        simp [install, hn]
      rw [hs1]
      have hext : findKey (s.heap ++ [p]) (p.take nameLen) s.keys =
          findKey s.heap (p.take nameLen) s.keys := findKey_heap_ext _ _ _ _ hWF
      have happ := findKey_append_one (s.heap ++ [p]) (p.take nameLen) s.keys s.heap.length
        (by rw [hext]; exact hn)
      rw [heapGet_append_self] at happ
      have hfind : findKey (s.heap ++ [p]) (p.take nameLen) (s.keys ++ [s.heap.length]) =
          some s.heap.length := by
        rw [happ]
        simp
      simp [install, hfind]
    · rw [entries_install_fresh s p hWF hn, List.filter_append]
      have h1 : (entries s).filter (fun e => decide (e.take nameLen = p.take nameLen)) = [] := by
        rw [List.filter_eq_nil_iff]
        intro e he
        rcases List.mem_map.mp (by simpa [entries] using he) with ⟨bid, hb, rfl⟩
        simpa using findKey_none_nomatch s.heap (p.take nameLen) s.keys hn bid hb
      rw [h1]
      simp

/-- Witness for C6: starting empty, installing the same entry twice lands on
already-present and leaves exactly the first payload bearing its name. -/
theorem C6_witness :
    install (install s0 kEx1).1 kEx1 = ((install s0 kEx1).1, InstallResult.alreadyPresent) := by
  have h := C6_install_correct s0 kEx1 (fun bid hb => by cases hb) (by decide)
  exact (h.2 (by decide)).2.2.2.1

/-- Claim C7: remove with a matching entry reports removed, shrinks the ring
by exactly one, zeroes the matched entry's backing buffer in place, and (as
the code behaves) leaves the default pointer as it was; remove with no
matching entry reports not-found and leaves the state entirely unchanged. -/
theorem C7_remove_correct (s : KState) (p : Buf) (hp : p.length = nameLen) :
    (findKeyIdx s.heap p s.keys = none → remove s p = (s, RemoveResult.notFound)) ∧
    (∀ j, findKeyIdx s.heap p s.keys = some j →
      (remove s p).2 = RemoveResult.removed ∧
      (remove s p).1.keys.length + 1 = s.keys.length ∧
      heapGet (remove s p).1.heap (s.keys.getD j 0) =
        List.replicate (heapGet s.heap (s.keys.getD j 0)).length 0 ∧
      (remove s p).1.dflt = s.dflt) := by
  constructor
  · intro hnone
    simp [remove, hnone]
  · intro j hj
    have hjlt := findKeyIdx_lt s.heap p s.keys j hj
    have hmatch := findKeyIdx_match s.heap p s.keys j hj
    have hblt : s.keys.getD j 0 < s.heap.length := by
      apply heapGet_pos_lt
      intro hemp
      rw [hemp] at hmatch
      have hpe : p = [] := by
        have := hmatch
        simpa using this.symm
      rw [hpe] at hp
      simp [nameLen] at hp
    simp only [remove, hj]
    refine ⟨trivial, ?_, ?_, trivial⟩
    · simp only [swapRemoveAt, List.length_dropLast, List.length_set]
      omega
    · rw [heapGet_heapZero_self _ _ hblt, zeroBuf_eq_replicate]

/-- Witness for C7 at a one-entry ring whose entry matches the given name. -/
theorem C7_witness :
    (remove { heap := [kEx1], keys := [0], dflt := none } (List.replicate 16 1)).2 =
      RemoveResult.removed ∧
    (remove { heap := [kEx1], keys := [0], dflt := none }
        (List.replicate 16 1)).1.keys.length + 1 = 1 := by
  have h := C7_remove_correct { heap := [kEx1], keys := [0], dflt := none }
    (List.replicate 16 1) (by decide)
  have h2 := h.2 0 (by decide)
  exact ⟨h2.1, h2.2.1⟩

/-- Claim C8: set_default clears the default pointer and then points it at the
first entry matching the 16-byte name; the resulting default is exactly the
lookup's result — independent of any previously set default — so a miss
leaves it null and reports not-found, never a stale default. -/
theorem C8_set_default_correct (s : KState) (p : Buf) (_hp : p.length = nameLen) :
    (set_default s p).1.heap = s.heap ∧ (set_default s p).1.keys = s.keys ∧
    (set_default s p).1.dflt = findKey s.heap p s.keys ∧
    ((set_default s p).2 = SetDefaultResult.notFound ↔ findKey s.heap p s.keys = none) := by
  rcases hf : findKey s.heap p s.keys with _ | bid <;> simp [set_default, hf]

/-- Witness for C8: a miss nulls a previously-set default. -/
theorem C8_witness :
    (set_default { heap := [kEx1], keys := [0], dflt := some 0 }
      (List.replicate 16 9)).1.dflt = none := by
  have h := C8_set_default_correct { heap := [kEx1], keys := [0], dflt := some 0 }
    (List.replicate 16 9) (by decide)
  rw [h.2.2.1]
  decide

/-- Claim C9: wipe unconditionally empties the ring, nulls the default
pointer, and zeroes every formerly-present entry's backing bytes in place;
and a wipe-keys event with any payload (the non-empty case is only logged)
is relayed and still performs the wipe without a fatal error. -/
theorem C9_wipe_correct (s : KState) :
    (wipe s).keys = [] ∧ (wipe s).dflt = none ∧
    (∀ bid ∈ s.keys, heapGet (wipe s).heap bid =
       List.replicate (heapGet s.heap bid).length 0) ∧
    (∀ (pfx : EvName) (pl : Buf) (c : Bool),
       handleEvent pfx s { name := pfx ++ wipeKeysEvent, payload := pl, coalesce := c } =
         { relayed := [{ name := pfx ++ wipeKeysEvent, payload := pl, coalesce := c }],
           fatal := false, state := wipe s }) := by
  refine ⟨rfl, rfl, ?_, ?_⟩
  · intro bid hb
    exact wipe_heapGet s bid hb
  · intro pfx pl c
    rw [handleEvent_app]
    simp [wk_ne_ik, wk_ne_rk, wk_ne_sk]

/-- Witness for C9 at a one-entry ring with a set default and a non-empty
wipe-keys payload. -/
theorem C9_witness :
    (wipe { heap := [kEx1], keys := [0], dflt := some 0 }).keys = [] ∧
    (wipe { heap := [kEx1], keys := [0], dflt := some 0 }).dflt = none ∧
    heapGet (wipe { heap := [kEx1], keys := [0], dflt := some 0 }).heap 0 =
      List.replicate 17 0 := by
  have h := C9_wipe_correct { heap := [kEx1], keys := [0], dflt := some 0 }
  refine ⟨h.1, h.2.1, ?_⟩
  have h2 := h.2.2.1 0 (by decide)
  simpa [kEx1, heapGet] using h2

/-- Claim C10: an inbound event whose name is the configured prefix followed
by a suffix that is none of the four mutation suffixes is republished
verbatim (same name, payload and coalesce flag) to tier B and then ignored
locally, leaving the keyring unchanged with no fatal error. -/
theorem C10_unknown_suffix_relayed (pfx rest : EvName) (s : KState) (pl : Buf) (c : Bool)
    (h1 : rest ≠ installKeyEvent) (h2 : rest ≠ removeKeyEvent)
    (h3 : rest ≠ setDefaultKeyEvent) (h4 : rest ≠ wipeKeysEvent) :
    handleEvent pfx s { name := pfx ++ rest, payload := pl, coalesce := c } =
      { relayed := [{ name := pfx ++ rest, payload := pl, coalesce := c }],
        fatal := false, state := s } := by
  rw [handleEvent_app]
  simp [h1, h2, h3, h4]

/-- Witness for C10 at a concrete foreign suffix. -/
theorem C10_witness :
    handleEvent pfxEx s0
      { name := pfxEx ++ "rotate-keys".toList, payload := [1, 2], coalesce := true } =
      { relayed :=
          [{ name := pfxEx ++ "rotate-keys".toList, payload := [1, 2], coalesce := true }],
        fatal := false, state := s0 } :=
  C10_unknown_suffix_relayed pfxEx ("rotate-keys".toList) s0 [1, 2] true
    (by decide) (by decide) (by decide) (by decide)

end EtherKeyProxy
